import Mathlib

/-!
Shallow embedding of the tic-tac-toe game logic of this repository.

The logical core lives in src/game_frontend/src/App.js and, in the
sound-enabled variant, in the second copy of the same component
(src/unnamed/part_000, which adds the terminal-sound latch
terminalPlayedRef).  Pure functions (calculateWinner, the isDraw memo,
selectAiMove) are translated directly; the React component state is
modelled as an explicit record, every event handler as a state
transformer, and the two useEffect hooks as effect functions that run
after every event (React re-runs them whenever their dependencies
change; the pending setTimeout handle is modelled as a boolean flag that
the effect cleanup clears).  The call to Math.random() in the fallback
branch of selectAiMove is modelled by an explicit natural-number
parameter r, the chosen index being r taken modulo the number of empty
cells.
-/

/-- A mark placed in a cell: the string values 'X' and 'O' of the source. -/
inductive Mark | X | O
deriving DecidableEq, Repr

/-- A board cell holds 'X', 'O' or null. -/
abbrev Cell := Option Mark

/-- The board: the `squares` array of 9 cells (index 0..8, row-major). -/
abbrev Board := List Cell

/-- The 8 fixed winning triples of calculateWinner: rows, columns, diagonals. -/
def winLines : List (Nat × Nat × Nat) :=
  [(0,1,2), (3,4,5), (6,7,8),
   (0,3,6), (1,4,7), (2,5,8),
   (0,4,8), (2,4,6)]

/-- One iteration of the loop body of calculateWinner: the test
`sq[a] && sq[a] === sq[b] && sq[a] === sq[c]` for a triple (a,b,c);
out-of-range reads are undefined in JS and falsy, modelled by getD none. -/
def lineWinner (sq : Board) (t : Nat × Nat × Nat) : Option Mark :=
  match sq.getD t.1 none with
  | none => none
  | some m =>
    if sq.getD t.2.1 none = some m ∧ sq.getD t.2.2 none = some m then some m
    else none

/-- calculateWinner of App.js: scan the 8 triples in order and return the
mark of the first completed one, else null. -/
def calculateWinner (sq : Board) : Option Mark :=
  winLines.findSome? (lineWinner sq)

/-- The isDraw memo: `!winner && squares.every(Boolean)`. -/
def isDraw (sq : Board) : Bool :=
  (calculateWinner sq).isNone && sq.all Option.isSome

/-- The derived outcome classification of the spec's rule engine. -/
inductive Outcome | inProgress | wonX | wonO | draw
deriving DecidableEq, Repr

/-- The outcome as the component derives it from the winner memo and the
isDraw memo. -/
def evaluate (sq : Board) : Outcome :=
  match calculateWinner sq with
  | some Mark.X => Outcome.wonX
  | some Mark.O => Outcome.wonO
  | none => if isDraw sq then Outcome.draw else Outcome.inProgress

/-- Specification-level predicate: the triple t of winLines is completed
with mark m on board sq. -/
def WinsAt (sq : Board) (m : Mark) (t : Nat × Nat × Nat) : Prop :=
  sq.getD t.1 none = some m ∧ sq.getD t.2.1 none = some m ∧ sq.getD t.2.2 none = some m

/-- Specification-level predicate: board sq has a completed row, column or
diagonal of identical non-empty marks m. -/
def HasWinLine (sq : Board) (m : Mark) : Prop :=
  ∃ t ∈ winLines, WinsAt sq m t

instance (sq : Board) (m : Mark) (t : Nat × Nat × Nat) : Decidable (WinsAt sq m t) := by
  unfold WinsAt; infer_instance

instance (sq : Board) (m : Mark) : Decidable (HasWinLine sq m) := by
  unfold HasWinLine; infer_instance

/-- The `available` list of selectAiMove:
`board.map((v, i) => (v === null ? i : null)).filter((i) => i !== null)`. -/
def availableIndices (board : Board) : List Nat :=
  (board.enum.map fun p => if p.2 = none then some p.1 else (none : Option Nat)).filterMap id

/-- `pickFrom(candidates) = candidates.find((i) => available.includes(i))`. -/
def pickFrom (available : List Nat) (candidates : List Nat) : Option Nat :=
  candidates.find? fun i => available.contains i

/-- `best = pickFrom(center) ?? pickFrom(corners) ?? pickFrom(edges)` with
center = [4], corners = [0,2,6,8], edges = [1,3,5,7]. -/
def bestCandidate (board : Board) : Option Nat :=
  ((pickFrom (availableIndices board) [4]).orElse fun _ =>
    pickFrom (availableIndices board) [0, 2, 6, 8]).orElse fun _ =>
    pickFrom (availableIndices board) [1, 3, 5, 7]

/-- selectAiMove of App.js.  The parameter r models Math.random(): the
fallback index `Math.floor(Math.random() * available.length)` is
modelled as r % available.length. -/
def selectAiMove (r : Nat) (board : Board) : Option Nat :=
  let available := availableIndices board
  if available.length = 0 then none
  else
    match bestCandidate board with
    | some b => some b
    | none => some (available.getD (r % available.length) 0)

/-- The game mode: 'pvp' (Two Players) or 'pve' (Single Player vs AI). -/
inductive Mode | pvp | pve
deriving DecidableEq, Repr

/-- Sound effects the component can trigger (playMove / playWin / playDraw). -/
inductive Sound | move | win | draw
deriving DecidableEq, Repr

/-- The React component state: the four useState hooks, the
terminalPlayedRef latch of the sound-enabled variant, and a boolean
modelling whether the AI-move setTimeout is currently pending. -/
structure GameState where
  squares : Board
  xIsNext : Bool
  mode : Mode
  isAiThinking : Bool
  terminalPlayed : Bool
  pendingTimer : Bool
deriving DecidableEq, Repr

/-- handleSquareClick: guards, then writes the current player's mark,
flips the turn and plays the move sound. -/
def handleSquareClick (s : GameState) (i : Nat) : GameState × List Sound :=
  if (s.squares.getD i none).isSome ∨ (calculateWinner s.squares).isSome
      ∨ (s.mode = Mode.pve ∧ s.isAiThinking) then (s, [])
  else if s.mode = Mode.pve ∧ s.xIsNext = false then (s, [])
  else
    ({ s with
        squares := s.squares.set i (some (if s.xIsNext then Mark.X else Mark.O)),
        xIsNext := !s.xIsNext },
     [Sound.move])

/-- The body of the AI setTimeout callback: the functional setSquares
update with its re-validation, followed by the unconditional
setXIsNext(true) and setIsAiThinking(false). -/
def applyTimer (r : Nat) (s : GameState) : GameState × List Sound :=
  let prev := s.squares
  if (calculateWinner prev).isSome ∨ prev.all Option.isSome then
    ({ s with xIsNext := true, isAiThinking := false }, [])
  else
    match selectAiMove r prev with
    | none => ({ s with xIsNext := true, isAiThinking := false }, [])
    | some i =>
      if (prev.getD i none).isSome then
        ({ s with xIsNext := true, isAiThinking := false }, [])
      else
        ({ s with
            squares := prev.set i (some Mark.O),
            xIsNext := true,
            isAiThinking := false },
         [Sound.move])

/-- resetGame: empty board, X to move, AI idle, terminal latch cleared. -/
def resetGame (s : GameState) : GameState :=
  { s with
      squares := List.replicate 9 none,
      xIsNext := true,
      isAiThinking := false,
      terminalPlayed := false }

/-- toggleMode: flip the mode and perform the same reset. -/
def toggleMode (s : GameState) : GameState :=
  { s with
      mode := if s.mode = Mode.pvp then Mode.pve else Mode.pvp,
      squares := List.replicate 9 none,
      xIsNext := true,
      isAiThinking := false,
      terminalPlayed := false }

/-- The AI-scheduling useEffect, including the cleanup that cancels a
pending timeout whenever the effect re-runs: in 'pvp' mode nothing is
scheduled; on a terminal board AI thinking stops; on O's turn a move is
scheduled (ai-thinking set); on X's turn AI thinking stops. -/
def aiEffect (s : GameState) : GameState :=
  if s.mode ≠ Mode.pve then { s with pendingTimer := false }
  else if (calculateWinner s.squares).isSome ∨ isDraw s.squares then
    { s with isAiThinking := false, pendingTimer := false }
  else if s.xIsNext = false then
    { s with isAiThinking := true, pendingTimer := true }
  else
    { s with isAiThinking := false, pendingTimer := false }

/-- The outcome-sound useEffect of the sound-enabled variant: plays the
win or draw sound the first time the outcome is terminal, guarded by the
terminalPlayedRef latch, and clears the latch while the game is not over. -/
def terminalSoundEffect (s : GameState) : GameState × List Sound :=
  match calculateWinner s.squares with
  | some _ =>
    if s.terminalPlayed then (s, [])
    else ({ s with terminalPlayed := true }, [Sound.win])
  | none =>
    if isDraw s.squares then
      if s.terminalPlayed then (s, [])
      else ({ s with terminalPlayed := true }, [Sound.draw])
    else ({ s with terminalPlayed := false }, [])

/-- Run the two effects in their declaration order after a render. -/
def runEffects (s : GameState) : GameState × List Sound :=
  let s1 := aiEffect s
  let p := terminalSoundEffect s1
  (p.1, p.2)

/-- External events driving the component.  A click always comes from one
of the 9 rendered squares; the timer event fires the pending setTimeout
(r models Math.random()); reset and toggleMode are the two buttons. -/
inductive GameEvent
  | click (i : Fin 9)
  | timerFires (r : Nat)
  | reset
  | toggle
deriving DecidableEq, Repr

/-- One event step: the raw handler runs, then the effects re-run. -/
def step (s : GameState) (e : GameEvent) : GameState × List Sound :=
  match e with
  | GameEvent.click i =>
    let p := handleSquareClick s i.val
    let q := runEffects p.1
    (q.1, p.2 ++ q.2)
  | GameEvent.timerFires r =>
    if s.pendingTimer then
      let p := applyTimer r s
      let q := runEffects p.1
      (q.1, p.2 ++ q.2)
    else (s, [])
  | GameEvent.reset =>
    let q := runEffects (resetGame s)
    (q.1, q.2)
  | GameEvent.toggle =>
    let q := runEffects (toggleMode s)
    (q.1, q.2)

/-- The state after the initial render and its effects: empty board, X to
move, 'pvp' mode, AI idle. -/
def initState : GameState :=
  (runEffects
    { squares := List.replicate 9 none,
      xIsNext := true,
      mode := Mode.pvp,
      isAiThinking := false,
      terminalPlayed := false,
      pendingTimer := false }).1

/-- Run a list of events from a state. -/
def run (s : GameState) (es : List GameEvent) : GameState :=
  es.foldl (fun acc e => (step acc e).1) s

/-- A state is reachable when some event sequence produces it from the
initial state. -/
def Reachable (s : GameState) : Prop :=
  ∃ es : List GameEvent, run initState es = s

/-- Number of cells holding mark m. -/
def countMark (m : Mark) (sq : Board) : Nat :=
  sq.count (some m)

/-- The board outcome is terminal (won or drawn). -/
def isTerminalB (sq : Board) : Bool :=
  (calculateWinner sq).isSome || isDraw sq

/-- The win/draw sounds among a step's emitted sounds. -/
def terminalSounds (snds : List Sound) : List Sound :=
  snds.filter fun x => x ≠ Sound.move

/-- The four derived outcome flags of the component, in the order
won-by-X, won-by-O, draw, in-progress. -/
def outcomeFlags (sq : Board) : List Bool :=
  [decide (calculateWinner sq = some Mark.X),
   decide (calculateWinner sq = some Mark.O),
   isDraw sq,
   (calculateWinner sq).isNone && !(sq.all Option.isSome)]

/-- A concrete full drawn board (no winner) with the turn at O, 'pve'
mode and the AI thinking: the state of a timer firing whose
re-validation fails. -/
def drawnState : GameState :=
  { squares := [some Mark.X, some Mark.O, some Mark.X,
                some Mark.O, some Mark.X, some Mark.O,
                some Mark.O, some Mark.X, some Mark.O],
    xIsNext := false,
    mode := Mode.pve,
    isAiThinking := true,
    terminalPlayed := true,
    pendingTimer := true }

/-- The inductive invariant of reachable states: a 9-cell board whose
mark counts follow the turn indicator, a pending timer only on a live
'pve' board at O's turn, and the terminal latch tracking terminality. -/
def StateInv (s : GameState) : Prop :=
  s.squares.length = 9 ∧
  (s.xIsNext = true → countMark Mark.X s.squares = countMark Mark.O s.squares) ∧
  (s.xIsNext = false → countMark Mark.X s.squares = countMark Mark.O s.squares + 1) ∧
  (s.pendingTimer = true → s.mode = Mode.pve ∧ s.xIsNext = false
    ∧ calculateWinner s.squares = none ∧ s.squares.all Option.isSome = false) ∧
  s.terminalPlayed = isTerminalB s.squares

/-- The sound the outcome effect emits given the latch value and the
board it sees. -/
def nextSound (latch : Bool) (sq : Board) : List Sound :=
  match calculateWinner sq with
  | some _ => if latch then [] else [Sound.win]
  | none => if isDraw sq then (if latch then [] else [Sound.draw]) else []

/-! ### Basic lemmas about the rule engine -/

theorem lineWinner_eq_some_iff (sq : Board) (t : Nat × Nat × Nat) (m : Mark) :
    lineWinner sq t = some m ↔ WinsAt sq m t := by
  obtain ⟨a, b, c⟩ := t
  unfold lineWinner WinsAt
  cases h : sq.getD a none with
  | none => simp [h]
  | some m' =>
    dsimp only
    by_cases hbc : sq.getD b none = some m' ∧ sq.getD c none = some m'
    · rw [if_pos hbc]
      constructor
      · intro h1
        obtain rfl : m' = m := by simpa using h1
        exact ⟨rfl, hbc.1, hbc.2⟩
      · rintro ⟨h1, _, _⟩
        exact h1
    · rw [if_neg hbc]
      constructor
      · intro hfalse
        exact absurd hfalse (by simp)
      · rintro ⟨h1, h2, h3⟩
        obtain rfl : m' = m := by simpa using h1
        exact absurd ⟨h2, h3⟩ hbc

theorem hasWinLine_of_calculateWinner (sq : Board) (m : Mark)
    (h : calculateWinner sq = some m) : HasWinLine sq m := by
  obtain ⟨t, ht, hw⟩ := List.exists_of_findSome?_eq_some h
  exact ⟨t, ht, (lineWinner_eq_some_iff sq t m).1 hw⟩

theorem calculateWinner_ne_none_of_hasWinLine (sq : Board) (m : Mark)
    (h : HasWinLine sq m) : calculateWinner sq ≠ none := by
  obtain ⟨t, ht, hw⟩ := h
  intro hc
  have hnone := List.findSome?_eq_none_iff.mp hc t ht
  rw [(lineWinner_eq_some_iff sq t m).2 hw] at hnone
  exact Option.noConfusion hnone

/-- C1: for every 9-cell board, the rule engine (calculateWinner plus the
draw check) returns the mark of a completed line whenever one exists
(the returned mark itself completes a line), returns marks only for
completed lines, classifies a full lineless board as a draw, and a
non-full lineless board as in progress. -/
theorem rule_engine_correct (sq : Board) (h9 : sq.length = 9) :
    (∀ m, HasWinLine sq m → ∃ w, calculateWinner sq = some w ∧ HasWinLine sq w) ∧
    (∀ m, calculateWinner sq = some m → HasWinLine sq m) ∧
    ((∀ m, ¬ HasWinLine sq m) → sq.all Option.isSome = true → evaluate sq = Outcome.draw) ∧
    ((∀ m, ¬ HasWinLine sq m) → sq.all Option.isSome = false → evaluate sq = Outcome.inProgress) := by
  refine ⟨?_, hasWinLine_of_calculateWinner sq, ?_, ?_⟩
  · intro m hm
    cases hc : calculateWinner sq with
    | none => exact absurd hc (calculateWinner_ne_none_of_hasWinLine sq m hm)
    | some w => exact ⟨w, rfl, hasWinLine_of_calculateWinner sq w hc⟩
  · intro hno hall
    have hc : calculateWinner sq = none := by
      cases hc : calculateWinner sq with
      | none => rfl
      | some w => exact absurd (hasWinLine_of_calculateWinner sq w hc) (hno w)
    unfold evaluate isDraw
    rw [hc]
    simp [hall]
  · intro hno hnotfull
    have hc : calculateWinner sq = none := by
      cases hc : calculateWinner sq with
      | none => rfl
      | some w => exact absurd (hasWinLine_of_calculateWinner sq w hc) (hno w)
    unfold evaluate isDraw
    rw [hc]
    simp [hnotfull]

/-- Witness for C1 on the concrete board [X,X,X,O,O,_,_,_,_] of the spec. -/
theorem rule_engine_correct_witness :
    ∃ w, calculateWinner
        [some Mark.X, some Mark.X, some Mark.X, some Mark.O, some Mark.O,
         none, none, none, none] = some w ∧
      HasWinLine
        [some Mark.X, some Mark.X, some Mark.X, some Mark.O, some Mark.O,
         none, none, none, none] w :=
  (rule_engine_correct
      [some Mark.X, some Mark.X, some Mark.X, some Mark.O, some Mark.O,
       none, none, none, none] (by decide)).1 Mark.X (by decide)

/-- C10: the derived outcome classification is exclusive: a board is never
both won and drawn, and exactly one of the four outcome flags holds. -/
theorem outcome_classification_exclusive (sq : Board) :
    ¬((calculateWinner sq).isSome = true ∧ isDraw sq = true) ∧
    (outcomeFlags sq).count true = 1 := by
  unfold outcomeFlags isDraw
  cases h : calculateWinner sq with
  | none =>
    cases hall : sq.all Option.isSome <;>
      simp [h, hall, List.count_cons, List.count_nil]
  | some m =>
    cases m <;> simp [h, List.count_cons, List.count_nil]

/-! ### Lemmas about the AI move selector -/

theorem mem_availableIndices_iff (sq : Board) (i : Nat) :
    i ∈ availableIndices sq ↔ sq[i]? = some none := by
  unfold availableIndices
  rw [List.mem_filterMap]
  constructor
  · rintro ⟨o, ho, hid⟩
    rw [List.mem_map] at ho
    obtain ⟨p, hp, hfp⟩ := ho
    obtain ⟨j, v⟩ := p
    have ho2 : o = some i := by simpa using hid
    subst ho2
    dsimp only at hfp
    split at hfp
    · rename_i hv
      obtain rfl : j = i := by simpa using hfp
      rw [List.mk_mem_enum_iff_getElem?] at hp
      rw [hp, hv]
    · exact absurd hfp (by simp)
  · intro h
    refine ⟨some i, List.mem_map.mpr ⟨(i, (none : Cell)), ?_, by simp⟩, rfl⟩
    exact List.mk_mem_enum_iff_getElem?.mpr h

theorem lt_and_getD_of_mem_availableIndices (sq : Board) (i : Nat)
    (h : i ∈ availableIndices sq) : i < sq.length ∧ sq.getD i none = none := by
  rw [mem_availableIndices_iff] at h
  obtain ⟨hlt, _⟩ := List.getElem?_eq_some_iff.mp h
  refine ⟨hlt, ?_⟩
  rw [List.getD_eq_getElem?_getD, h]
  rfl

theorem mem_availableIndices_of_getD (sq : Board) (i : Nat)
    (hlt : i < sq.length) (h : sq.getD i none = none) : i ∈ availableIndices sq := by
  rw [mem_availableIndices_iff]
  have h2 := List.getElem?_eq_getElem hlt
  rw [List.getD_eq_getElem?_getD, h2, Option.getD_some] at h
  rw [h2, h]

theorem contains_availableIndices (sq : Board) (i : Nat) :
    (availableIndices sq).contains i = true ↔ i ∈ availableIndices sq := by
  simp [List.contains, List.elem_eq_mem]

theorem availableIndices_eq_nil_iff (sq : Board) :
    availableIndices sq = [] ↔ sq.all Option.isSome = true := by
  rw [List.eq_nil_iff_forall_not_mem, List.all_eq_true]
  constructor
  · intro h x hx
    obtain ⟨n, hn, rfl⟩ := List.getElem_of_mem hx
    by_contra hns
    have hnone : sq.getD n none = none := by
      have := Option.not_isSome_iff_eq_none.mp (fun hs => hns hs)
      rw [List.getD_eq_getElem?_getD, List.getElem?_eq_getElem hn, Option.getD_some]
      exact this
    exact h n (mem_availableIndices_of_getD sq n hn hnone)
  · intro h i hi
    rw [mem_availableIndices_iff] at hi
    obtain ⟨hlt, hget⟩ := List.getElem?_eq_some_iff.mp hi
    have hmem := h _ (List.getElem_mem hlt)
    rw [hget] at hmem
    exact absurd hmem (by simp)

theorem find?_congr_pred (p q : Nat → Bool) (l : List Nat) (h : ∀ x ∈ l, p x = q x) :
    l.find? p = l.find? q := by
  induction l with
  | nil => rfl
  | cons a as ih =>
    rw [List.find?_cons, List.find?_cons, h a (List.mem_cons_self a as)]
    cases hb : q a
    · exact ih fun x hx => h x (List.mem_cons_of_mem a hx)
    · rfl

theorem pickFrom_eq_find?_empty (sq : Board) (h9 : sq.length = 9) (cands : List Nat)
    (hc : ∀ c ∈ cands, c < 9) :
    pickFrom (availableIndices sq) cands =
      cands.find? fun i => (sq.getD i none).isNone := by
  unfold pickFrom
  apply find?_congr_pred
  intro x hx
  rw [Bool.eq_iff_iff, contains_availableIndices, Option.isNone_iff_eq_none]
  constructor
  · intro hmem
    exact (lt_and_getD_of_mem_availableIndices sq x hmem).2
  · intro hnone
    exact mem_availableIndices_of_getD sq x (by rw [h9]; exact hc x hx) hnone

theorem bestCandidate_eq (sq : Board) (h9 : sq.length = 9) :
    bestCandidate sq =
      if sq.getD 4 none = none then some 4
      else
        match [0, 2, 6, 8].find? (fun i => (sq.getD i none).isNone) with
        | some c => some c
        | none => [1, 3, 5, 7].find? fun i => (sq.getD i none).isNone := by
  unfold bestCandidate
  rw [pickFrom_eq_find?_empty sq h9 [4] (by decide),
      pickFrom_eq_find?_empty sq h9 [0, 2, 6, 8] (by decide),
      pickFrom_eq_find?_empty sq h9 [1, 3, 5, 7] (by decide)]
  by_cases h4 : sq.getD 4 none = none
  · rw [if_pos h4]
    have hcent : [4].find? (fun i => (sq.getD i none).isNone) = some 4 := by
      simp only [List.find?_cons, Option.isNone_iff_eq_none.mpr h4]
    rw [hcent]
    rfl
  · rw [if_neg h4]
    have h4b : (sq.getD 4 none).isNone = false := by
      rw [Bool.eq_false_iff]
      intro hcontra
      exact h4 (Option.isNone_iff_eq_none.mp hcontra)
    have hcent : [4].find? (fun i => (sq.getD i none).isNone) = none := by
      simp only [List.find?_cons, h4b, List.find?_nil]
    rw [hcent]
    cases hcor : [0, 2, 6, 8].find? (fun i => (sq.getD i none).isNone) with
    | some c => rfl
    | none => rfl

theorem bestCandidate_mem (sq : Board) (b : Nat) (h : bestCandidate sq = some b) :
    b ∈ availableIndices sq := by
  unfold bestCandidate at h
  cases h1 : pickFrom (availableIndices sq) [4] with
  | some a =>
    rw [h1] at h
    simp only [Option.orElse] at h
    obtain rfl : a = b := by simpa using h
    exact (contains_availableIndices sq a).mp (List.find?_some h1)
  | none =>
    rw [h1] at h
    simp only [Option.orElse] at h
    cases h2 : pickFrom (availableIndices sq) [0, 2, 6, 8] with
    | some a =>
      rw [h2] at h
      simp only [Option.orElse] at h
      obtain rfl : a = b := by simpa using h
      exact (contains_availableIndices sq a).mp (List.find?_some h2)
    | none =>
      rw [h2] at h
      simp only [Option.orElse] at h
      exact (contains_availableIndices sq b).mp (List.find?_some h)

theorem getD_mem_of_lt (l : List Nat) (k : Nat) (hk : k < l.length) : l.getD k 0 ∈ l := by
  rw [List.getD_eq_getElem?_getD, List.getElem?_eq_getElem hk, Option.getD_some]
  exact List.getElem_mem hk

theorem bestCandidate_spec (sq : Board) (h9 : sq.length = 9)
    (hne : sq.all Option.isSome = false) :
    ∃ b, bestCandidate sq = some b ∧ sq.getD b none = none := by
  rw [bestCandidate_eq sq h9]
  by_cases h4 : sq.getD 4 none = none
  · rw [if_pos h4]
    exact ⟨4, rfl, h4⟩
  · rw [if_neg h4]
    cases hcor : [0, 2, 6, 8].find? (fun i => (sq.getD i none).isNone) with
    | some c =>
      refine ⟨c, rfl, ?_⟩
      have := List.find?_some hcor
      exact Option.isNone_iff_eq_none.mp (by simpa using this)
    | none =>
      cases hedge : [1, 3, 5, 7].find? (fun i => (sq.getD i none).isNone) with
      | some e =>
        refine ⟨e, rfl, ?_⟩
        have := List.find?_some hedge
        exact Option.isNone_iff_eq_none.mp (by simpa using this)
      | none =>
        exfalso
        have hcor' := List.find?_eq_none.mp hcor
        have hedge' := List.find?_eq_none.mp hedge
        have hocc : ∀ i, i < 9 → ¬ sq.getD i none = none := by
          intro i hi
          have h09 : i = 0 ∨ i = 1 ∨ i = 2 ∨ i = 3 ∨ i = 4 ∨ i = 5 ∨ i = 6 ∨ i = 7
              ∨ i = 8 := by omega
          rcases h09 with rfl | rfl | rfl | rfl | rfl | rfl | rfl | rfl | rfl
          · intro hc; exact hcor' 0 (by decide) (Option.isNone_iff_eq_none.mpr hc)
          · intro hc; exact hedge' 1 (by decide) (Option.isNone_iff_eq_none.mpr hc)
          · intro hc; exact hcor' 2 (by decide) (Option.isNone_iff_eq_none.mpr hc)
          · intro hc; exact hedge' 3 (by decide) (Option.isNone_iff_eq_none.mpr hc)
          · exact h4
          · intro hc; exact hedge' 5 (by decide) (Option.isNone_iff_eq_none.mpr hc)
          · intro hc; exact hcor' 6 (by decide) (Option.isNone_iff_eq_none.mpr hc)
          · intro hc; exact hedge' 7 (by decide) (Option.isNone_iff_eq_none.mpr hc)
          · intro hc; exact hcor' 8 (by decide) (Option.isNone_iff_eq_none.mpr hc)
        have hall : sq.all Option.isSome = true := by
          rw [← availableIndices_eq_nil_iff, List.eq_nil_iff_forall_not_mem]
          intro i hi
          obtain ⟨hlt, hgd⟩ := lt_and_getD_of_mem_availableIndices sq i hi
          exact hocc i (by omega) hgd
        rw [hall] at hne
        exact Bool.noConfusion hne

theorem selectAiMove_sound (r : Nat) (sq : Board) :
    (selectAiMove r sq = none ↔ sq.all Option.isSome = true) ∧
    ∀ i, selectAiMove r sq = some i → i < sq.length ∧ sq.getD i none = none := by
  unfold selectAiMove
  dsimp only
  by_cases hlen : (availableIndices sq).length = 0
  · rw [if_pos hlen]
    refine ⟨⟨fun _ => (availableIndices_eq_nil_iff sq).mp (List.length_eq_zero.mp hlen),
      fun _ => rfl⟩, ?_⟩
    intro i hi
    exact Option.noConfusion hi
  · rw [if_neg hlen]
    constructor
    · constructor
      · intro hcontra
        cases hbc : bestCandidate sq with
        | some b => rw [hbc] at hcontra; exact Option.noConfusion hcontra
        | none => rw [hbc] at hcontra; exact Option.noConfusion hcontra
      · intro hall
        exact absurd (List.length_eq_zero.mpr
          ((availableIndices_eq_nil_iff sq).mpr hall)) hlen
    · intro i hi
      cases hbc : bestCandidate sq with
      | some b =>
        rw [hbc] at hi
        obtain rfl : b = i := by simpa using hi
        exact lt_and_getD_of_mem_availableIndices sq b (bestCandidate_mem sq b hbc)
      | none =>
        rw [hbc] at hi
        obtain rfl : (availableIndices sq).getD (r % (availableIndices sq).length) 0 = i := by
          simpa using hi
        have hk : r % (availableIndices sq).length < (availableIndices sq).length :=
          Nat.mod_lt r (Nat.pos_of_ne_zero hlen)
        exact lt_and_getD_of_mem_availableIndices sq _
          (getD_mem_of_lt (availableIndices sq) _ hk)

/-- C5: selectMove returns none exactly when the board is full, and any
returned index is a currently-empty cell of the board. -/
theorem selectMove_empty_cell (r : Nat) (sq : Board) :
    (selectAiMove r sq = none ↔ sq.all Option.isSome = true) ∧
    ∀ i, selectAiMove r sq = some i → i < sq.length ∧ sq.getD i none = none :=
  selectAiMove_sound r sq

/-- C6: on a 9-cell board with an empty cell, selectAiMove plays the
center if empty, else the first empty corner in the order 0,2,6,8,
else the first empty edge in the order 1,3,5,7. -/
theorem selectMove_policy (r : Nat) (sq : Board) (h9 : sq.length = 9)
    (hne : sq.all Option.isSome = false) :
    selectAiMove r sq =
      if sq.getD 4 none = none then some 4
      else
        match [0, 2, 6, 8].find? (fun i => (sq.getD i none).isNone) with
        | some c => some c
        | none => [1, 3, 5, 7].find? fun i => (sq.getD i none).isNone := by
  have hlen : ¬ (availableIndices sq).length = 0 := by
    intro hcontra
    rw [(availableIndices_eq_nil_iff sq).mp (List.length_eq_zero.mp hcontra)] at hne
    exact Bool.noConfusion hne
  obtain ⟨b, hb, _⟩ := bestCandidate_spec sq h9 hne
  unfold selectAiMove
  dsimp only
  rw [if_neg hlen, hb]
  dsimp only
  rw [← hb, bestCandidate_eq sq h9]

/-- Witness for C6: on the board where only cell 4 is taken, the policy
picks corner 0. -/
theorem selectMove_policy_witness :
    [(none : Cell), none, none, none, some Mark.O, none, none, none, none].length = 9 ∧
    [(none : Cell), none, none, none, some Mark.O, none, none, none, none].all
      Option.isSome = false ∧
    selectAiMove 0 [none, none, none, none, some Mark.O, none, none, none, none] =
      if List.getD [(none : Cell), none, none, none, some Mark.O, none, none, none, none]
          4 none = none then some 4
      else
        match [0, 2, 6, 8].find? (fun i =>
            (List.getD [(none : Cell), none, none, none, some Mark.O, none, none, none,
              none] i none).isNone) with
        | some c => some c
        | none => [1, 3, 5, 7].find? fun i =>
            (List.getD [(none : Cell), none, none, none, some Mark.O, none, none, none,
              none] i none).isNone :=
  ⟨by decide, by decide,
    selectMove_policy 0 [none, none, none, none, some Mark.O, none, none, none, none]
      (by decide) (by decide)⟩

/-- C7: on a 9-cell board with an empty cell the center/corner/edge scan
always finds an empty cell, so the random fallback is unreachable and
selectAiMove does not depend on the random draw. -/
theorem selectMove_deterministic (sq : Board) (h9 : sq.length = 9)
    (hne : sq.all Option.isSome = false) :
    (∃ b, bestCandidate sq = some b ∧ sq.getD b none = none) ∧
    ∀ r₁ r₂ : Nat, selectAiMove r₁ sq = selectAiMove r₂ sq := by
  obtain ⟨b, hb, hbe⟩ := bestCandidate_spec sq h9 hne
  refine ⟨⟨b, hb, hbe⟩, ?_⟩
  intro r₁ r₂
  unfold selectAiMove
  dsimp only
  rw [hb]

/-- Witness for C7 on the empty board. -/
theorem selectMove_deterministic_witness :
    (∃ b, bestCandidate (List.replicate 9 (none : Cell)) = some b ∧
      (List.replicate 9 (none : Cell)).getD b none = none) ∧
    ∀ r₁ r₂ : Nat, selectAiMove r₁ (List.replicate 9 (none : Cell)) =
      selectAiMove r₂ (List.replicate 9 (none : Cell)) :=
  selectMove_deterministic (List.replicate 9 none) (by decide) (by decide)

/-! ### Click handler, reset and the timer callback -/

theorem getD_isSome_of_all (sq : Board) (i : Nat) (hlt : i < sq.length)
    (hall : sq.all Option.isSome = true) : (sq.getD i none).isSome = true := by
  rw [List.getD_eq_getElem?_getD, List.getElem?_eq_getElem hlt, Option.getD_some]
  exact List.all_eq_true.mp hall _ (List.getElem_mem hlt)

/-- C3: an invalid move attempt (occupied cell, terminal outcome, out of
turn in vs-computer mode, or during AI thinking) is a silent no-op:
handleSquareClick returns the state unchanged and plays no sound. -/
theorem applyMove_invalid_noop (s : GameState) (i : Nat) (hi : i < 9)
    (h9 : s.squares.length = 9)
    (hinvalid : ¬ s.squares.getD i none = none
      ∨ isTerminalB s.squares = true
      ∨ (s.mode = Mode.pve ∧ s.xIsNext = false)
      ∨ (s.mode = Mode.pve ∧ s.isAiThinking = true)) :
    handleSquareClick s i = (s, []) := by
  unfold handleSquareClick
  rcases hinvalid with hocc | hterm | hturn | hai
  · rw [if_pos (Or.inl (Option.ne_none_iff_isSome.mp hocc))]
  · unfold isTerminalB at hterm
    rcases Bool.or_eq_true_iff.mp hterm with hw | hd
    · rw [if_pos (Or.inr (Or.inl hw))]
    · unfold isDraw at hd
      have hall := (Bool.and_eq_true_iff.mp hd).2
      rw [if_pos (Or.inl (getD_isSome_of_all s.squares i (by omega) hall))]
  · by_cases hg : (s.squares.getD i none).isSome = true
      ∨ (calculateWinner s.squares).isSome = true
      ∨ (s.mode = Mode.pve ∧ s.isAiThinking = true)
    · rw [if_pos hg]
    · rw [if_neg hg, if_pos hturn]
  · rw [if_pos (Or.inr (Or.inr hai))]

/-- Witness for C3: clicking the occupied cell 0 changes nothing. -/
theorem applyMove_invalid_noop_witness :
    (0 : Nat) < 9 ∧
    (GameState.mk [some Mark.X, none, none, none, none, none, none, none, none]
      false Mode.pvp false false false).squares.length = 9 ∧
    handleSquareClick
      (GameState.mk [some Mark.X, none, none, none, none, none, none, none, none]
        false Mode.pvp false false false) 0 =
      (GameState.mk [some Mark.X, none, none, none, none, none, none, none, none]
        false Mode.pvp false false false, []) :=
  ⟨by decide, by decide,
    applyMove_invalid_noop
      (GameState.mk [some Mark.X, none, none, none, none, none, none, none, none]
        false Mode.pvp false false false) 0 (by decide) (by decide)
      (Or.inl (by decide))⟩

/-- C8: resetGame always yields the empty 9-cell board, X to move, AI
idle and the terminal-sound latch cleared, whatever the prior state. -/
theorem reset_state (s : GameState) :
    (resetGame s).squares = List.replicate 9 none ∧
    (resetGame s).xIsNext = true ∧
    (resetGame s).isAiThinking = false ∧
    (resetGame s).terminalPlayed = false :=
  ⟨rfl, rfl, rfl, rfl⟩

/-- C2 counterexample: at a state where the timer's re-validation fails
(full drawn board), the callback leaves the board alone but flips the
turn indicator from O to X, so the state is not unchanged up to the
ai-thinking flag. -/
theorem timer_revalidation_counterexample :
    ((calculateWinner drawnState.squares).isSome = true
      ∨ drawnState.squares.all Option.isSome = true) ∧
    (applyTimer 0 drawnState).1.squares = drawnState.squares ∧
    ¬ (applyTimer 0 drawnState).1.xIsNext = drawnState.xIsNext := by
  decide

/-- C2 (amended): when the timer fires but re-validation fails (winner
present, board full, or the chosen cell occupied), the board and the
mode are unchanged, no sound is played and ai-thinking is cleared, but
the turn indicator is unconditionally set to X. -/
theorem timer_revalidation_abandons (r : Nat) (s : GameState)
    (hfail : (calculateWinner s.squares).isSome = true
      ∨ s.squares.all Option.isSome = true
      ∨ selectAiMove r s.squares = none
      ∨ ∃ i, selectAiMove r s.squares = some i
          ∧ (s.squares.getD i none).isSome = true) :
    (applyTimer r s).1.squares = s.squares ∧
    (applyTimer r s).1.xIsNext = true ∧
    (applyTimer r s).1.isAiThinking = false ∧
    (applyTimer r s).1.mode = s.mode ∧
    (applyTimer r s).2 = [] := by
  unfold applyTimer
  dsimp only
  by_cases hval : (calculateWinner s.squares).isSome = true
    ∨ s.squares.all Option.isSome = true
  · rw [if_pos hval]
    exact ⟨rfl, rfl, rfl, rfl, rfl⟩
  · rw [if_neg hval]
    rcases hfail with h | h | h | h
    · exact absurd (Or.inl h) hval
    · exact absurd (Or.inr h) hval
    · rw [h]
      exact ⟨rfl, rfl, rfl, rfl, rfl⟩
    · obtain ⟨i, hsel, hocc⟩ := h
      rw [hsel]
      dsimp only
      rw [if_pos hocc]
      exact ⟨rfl, rfl, rfl, rfl, rfl⟩

/-- Witness for the amended C2 at the concrete drawn state. -/
theorem timer_revalidation_abandons_witness :
    ((calculateWinner drawnState.squares).isSome = true
      ∨ drawnState.squares.all Option.isSome = true
      ∨ selectAiMove 0 drawnState.squares = none
      ∨ ∃ i, selectAiMove 0 drawnState.squares = some i
          ∧ (drawnState.squares.getD i none).isSome = true) ∧
    ((applyTimer 0 drawnState).1.squares = drawnState.squares ∧
     (applyTimer 0 drawnState).1.xIsNext = true ∧
     (applyTimer 0 drawnState).1.isAiThinking = false ∧
     (applyTimer 0 drawnState).1.mode = drawnState.mode ∧
     (applyTimer 0 drawnState).2 = []) :=
  ⟨Or.inr (Or.inl (by decide)),
    timer_revalidation_abandons 0 drawnState (Or.inr (Or.inl (by decide)))⟩

/-! ### Effects and the step relation -/

theorem aiEffect_fields (s : GameState) :
    (aiEffect s).squares = s.squares ∧ (aiEffect s).xIsNext = s.xIsNext ∧
    (aiEffect s).mode = s.mode ∧ (aiEffect s).terminalPlayed = s.terminalPlayed := by
  unfold aiEffect
  split
  · exact ⟨rfl, rfl, rfl, rfl⟩
  · split
    · exact ⟨rfl, rfl, rfl, rfl⟩
    · split
      · exact ⟨rfl, rfl, rfl, rfl⟩
      · exact ⟨rfl, rfl, rfl, rfl⟩

theorem terminalSoundEffect_fields (s : GameState) :
    (terminalSoundEffect s).1.squares = s.squares ∧
    (terminalSoundEffect s).1.xIsNext = s.xIsNext ∧
    (terminalSoundEffect s).1.mode = s.mode ∧
    (terminalSoundEffect s).1.isAiThinking = s.isAiThinking ∧
    (terminalSoundEffect s).1.pendingTimer = s.pendingTimer := by
  unfold terminalSoundEffect
  split
  · split
    · exact ⟨rfl, rfl, rfl, rfl, rfl⟩
    · exact ⟨rfl, rfl, rfl, rfl, rfl⟩
  · split
    · split
      · exact ⟨rfl, rfl, rfl, rfl, rfl⟩
      · exact ⟨rfl, rfl, rfl, rfl, rfl⟩
    · exact ⟨rfl, rfl, rfl, rfl, rfl⟩

theorem terminalSoundEffect_latch (s : GameState) :
    (terminalSoundEffect s).1.terminalPlayed = isTerminalB s.squares := by
  unfold terminalSoundEffect isTerminalB
  split
  · rename_i m hm
    split
    · rename_i hl
      simp [hm, hl]
    · simp [hm]
  · rename_i hm
    split
    · rename_i hd
      split
      · rename_i hl
        simp [hm, hd, hl]
      · simp [hm, hd]
    · rename_i hd
      simp [hm, Bool.eq_false_iff.mpr hd]

theorem terminalSoundEffect_sounds_eq (s : GameState) :
    (terminalSoundEffect s).2 = nextSound s.terminalPlayed s.squares := by
  unfold terminalSoundEffect nextSound
  split
  · split
    · rfl
    · rfl
  · split
    · split
      · rfl
      · rfl
    · rfl

theorem aiEffect_pending (s : GameState) :
    (aiEffect s).pendingTimer = true →
      s.mode = Mode.pve ∧ s.xIsNext = false ∧ calculateWinner s.squares = none
        ∧ s.squares.all Option.isSome = false := by
  unfold aiEffect
  split
  · intro h
    exact absurd h (by simp)
  · rename_i hmode
    split
    · intro h
      exact absurd h (by simp)
    · rename_i hterm
      split
      · rename_i hx
        intro _
        push_neg at hterm
        refine ⟨not_not.mp hmode, hx, ?_, ?_⟩
        · exact Option.not_isSome_iff_eq_none.mp (by simpa using hterm.1)
        · have hwn : calculateWinner s.squares = none :=
            Option.not_isSome_iff_eq_none.mp (by simpa using hterm.1)
          have hdraw : isDraw s.squares = false := by
            simpa using hterm.2
          unfold isDraw at hdraw
          rw [hwn] at hdraw
          simpa using hdraw
      · intro h
        exact absurd h (by simp)

theorem runEffects_fields (s : GameState) :
    (runEffects s).1.squares = s.squares ∧ (runEffects s).1.xIsNext = s.xIsNext ∧
    (runEffects s).1.mode = s.mode := by
  unfold runEffects
  dsimp only
  obtain ⟨h1, h2, h3, _⟩ := aiEffect_fields s
  obtain ⟨g1, g2, g3, _, _⟩ := terminalSoundEffect_fields (aiEffect s)
  exact ⟨g1.trans h1, g2.trans h2, g3.trans h3⟩

theorem runEffects_latch (s : GameState) :
    (runEffects s).1.terminalPlayed = isTerminalB s.squares := by
  unfold runEffects
  dsimp only
  rw [terminalSoundEffect_latch (aiEffect s), (aiEffect_fields s).1]

theorem runEffects_sounds (s : GameState) :
    (runEffects s).2 = nextSound s.terminalPlayed s.squares := by
  unfold runEffects
  dsimp only
  rw [terminalSoundEffect_sounds_eq (aiEffect s), (aiEffect_fields s).1,
    (aiEffect_fields s).2.2.2]

theorem runEffects_pending (s : GameState) :
    (runEffects s).1.pendingTimer = true →
      (runEffects s).1.mode = Mode.pve ∧ (runEffects s).1.xIsNext = false ∧
      calculateWinner (runEffects s).1.squares = none ∧
      (runEffects s).1.squares.all Option.isSome = false := by
  intro h
  have hp : (aiEffect s).pendingTimer = true := by
    have hpres := (terminalSoundEffect_fields (aiEffect s)).2.2.2.2
    unfold runEffects at h
    dsimp only at h
    rw [hpres] at h
    exact h
  obtain ⟨hm, hx, hw, ha⟩ := aiEffect_pending s hp
  obtain ⟨f1, f2, f3⟩ := runEffects_fields s
  exact ⟨f3.trans hm, f2.trans hx, by rw [f1]; exact hw, by rw [f1]; exact ha⟩

theorem handleSquareClick_cases (s : GameState) (i : Nat) :
    handleSquareClick s i = (s, []) ∨
    (s.squares.getD i none = none ∧ calculateWinner s.squares = none ∧
     ¬(s.mode = Mode.pve ∧ s.xIsNext = false) ∧
     (handleSquareClick s i).1 = { s with
        squares := s.squares.set i (some (if s.xIsNext then Mark.X else Mark.O)),
        xIsNext := !s.xIsNext } ∧
     (handleSquareClick s i).2 = [Sound.move]) := by
  unfold handleSquareClick
  by_cases h1 : (s.squares.getD i none).isSome = true
    ∨ (calculateWinner s.squares).isSome = true
    ∨ (s.mode = Mode.pve ∧ s.isAiThinking = true)
  · rw [if_pos h1]
    left
    rfl
  · rw [if_neg h1]
    by_cases h2 : s.mode = Mode.pve ∧ s.xIsNext = false
    · rw [if_pos h2]
      left
      rfl
    · rw [if_neg h2]
      right
      push_neg at h1
      exact ⟨Option.not_isSome_iff_eq_none.mp h1.1,
        Option.not_isSome_iff_eq_none.mp h1.2.1, h2, rfl, rfl⟩

theorem handleSquareClick_latch (s : GameState) (i : Nat) :
    (handleSquareClick s i).1.terminalPlayed = s.terminalPlayed := by
  unfold handleSquareClick
  split
  · rfl
  · split
    · rfl
    · rfl

theorem applyTimer_latch (r : Nat) (s : GameState) :
    (applyTimer r s).1.terminalPlayed = s.terminalPlayed := by
  unfold applyTimer
  dsimp only
  split
  · rfl
  · split
    · rfl
    · split
      · rfl
      · rfl

theorem terminalSounds_move : terminalSounds [Sound.move] = [] := rfl

theorem terminalSounds_nil : terminalSounds [] = [] := rfl

theorem handleSquareClick_sound_list (s : GameState) (i : Nat) :
    terminalSounds (handleSquareClick s i).2 = [] := by
  unfold handleSquareClick
  split
  · rfl
  · split
    · rfl
    · rfl

theorem applyTimer_sound_list (r : Nat) (s : GameState) :
    terminalSounds (applyTimer r s).2 = [] := by
  unfold applyTimer
  dsimp only
  split
  · rfl
  · split
    · rfl
    · split
      · rfl
      · rfl

theorem countMark_set (sq : Board) (i : Nat) (m m' : Mark) (hlt : i < sq.length)
    (hempty : sq.getD i none = none) :
    countMark m' (sq.set i (some m)) =
      countMark m' sq + if m = m' then 1 else 0 := by
  unfold countMark
  have hgi : sq[i] = (none : Cell) := by
    rw [List.getD_eq_getElem?_getD, List.getElem?_eq_getElem hlt, Option.getD_some]
      at hempty
    exact hempty
  rw [List.count_set _ _ _ _ hlt, hgi]
  cases m <;> cases m' <;> simp

theorem stateInv_runEffects (s1 : GameState)
    (hlen : s1.squares.length = 9)
    (hx : s1.xIsNext = true →
      countMark Mark.X s1.squares = countMark Mark.O s1.squares)
    (ho : s1.xIsNext = false →
      countMark Mark.X s1.squares = countMark Mark.O s1.squares + 1) :
    StateInv (runEffects s1).1 := by
  obtain ⟨f1, f2, f3⟩ := runEffects_fields s1
  refine ⟨by rw [f1]; exact hlen, ?_, ?_, runEffects_pending s1, ?_⟩
  · intro hxt
    rw [f1]
    exact hx (f2 ▸ hxt)
  · intro hxf
    rw [f1]
    exact ho (f2 ▸ hxf)
  · rw [runEffects_latch s1, f1]


theorem stateInv_after_move (sq : Board) (xn : Bool) (i : Nat)
    (hilt : i < sq.length) (hempty : sq.getD i none = none)
    (hx : xn = true → countMark Mark.X sq = countMark Mark.O sq)
    (ho : xn = false → countMark Mark.X sq = countMark Mark.O sq + 1) :
    ((!xn) = true →
      countMark Mark.X (sq.set i (some (if xn then Mark.X else Mark.O))) =
        countMark Mark.O (sq.set i (some (if xn then Mark.X else Mark.O)))) ∧
    ((!xn) = false →
      countMark Mark.X (sq.set i (some (if xn then Mark.X else Mark.O))) =
        countMark Mark.O (sq.set i (some (if xn then Mark.X else Mark.O))) + 1) := by
  cases xn with
  | true =>
    constructor
    · intro hc
      exact Bool.noConfusion hc
    · intro _
      have hbal := hx rfl
      show countMark Mark.X (sq.set i (some Mark.X)) =
        countMark Mark.O (sq.set i (some Mark.X)) + 1
      rw [countMark_set sq i Mark.X Mark.X hilt hempty,
        countMark_set sq i Mark.X Mark.O hilt hempty]
      simp [hbal]
  | false =>
    constructor
    · intro _
      have hbal := ho rfl
      show countMark Mark.X (sq.set i (some Mark.O)) =
        countMark Mark.O (sq.set i (some Mark.O))
      rw [countMark_set sq i Mark.O Mark.X hilt hempty,
        countMark_set sq i Mark.O Mark.O hilt hempty]
      simp [hbal]
    · intro hc
      exact Bool.noConfusion hc

theorem stateInv_step (s : GameState) (e : GameEvent) (h : StateInv s) :
    StateInv (step s e).1 := by
  obtain ⟨hlen, hxcnt, hocnt, hpend, hlatch⟩ := h
  cases e with
  | click i =>
    show StateInv (runEffects (handleSquareClick s i.val).1).1
    rcases handleSquareClick_cases s i.val with hno | ⟨hempty, _, _, hsucc, _⟩
    · rw [hno]
      exact stateInv_runEffects s hlen hxcnt hocnt
    · rw [hsucc]
      have hilt : i.val < s.squares.length := by
        rw [hlen]
        exact i.isLt
      obtain ⟨hA, hB⟩ := stateInv_after_move s.squares s.xIsNext i.val hilt hempty
        hxcnt hocnt
      exact stateInv_runEffects _ (by dsimp only; rw [List.length_set]; exact hlen) hA hB
  | timerFires r =>
    show StateInv (if s.pendingTimer = true then
        ((runEffects (applyTimer r s).1).1, (applyTimer r s).2
          ++ (runEffects (applyTimer r s).1).2)
      else (s, [])).1
    by_cases hp : s.pendingTimer = true
    · rw [if_pos hp]
      obtain ⟨hm, hxf, hw, hfull⟩ := hpend hp
      have hval : ¬((calculateWinner s.squares).isSome = true
          ∨ s.squares.all Option.isSome = true) := by
        rintro (hc | hc)
        · rw [hw] at hc
          exact Bool.noConfusion hc
        · rw [hfull] at hc
          exact Bool.noConfusion hc
      cases hsel : selectAiMove r s.squares with
      | none =>
        have hfc := (selectAiMove_sound r s.squares).1.mp hsel
        rw [hfull] at hfc
        exact Bool.noConfusion hfc
      | some j =>
        obtain ⟨hjlt, hjempty⟩ := (selectAiMove_sound r s.squares).2 j hsel
        have happ : (applyTimer r s).1 = { s with
            squares := s.squares.set j (some Mark.O),
            xIsNext := true,
            isAiThinking := false } := by
          unfold applyTimer
          dsimp only
          rw [if_neg hval, hsel]
          dsimp only
          rw [if_neg (by rw [hjempty]; simp)]
        rw [happ]
        refine stateInv_runEffects _
          (by dsimp only; rw [List.length_set]; exact hlen) ?_ ?_
        · intro _
          have hbal := hocnt hxf
          show countMark Mark.X (s.squares.set j (some Mark.O)) =
            countMark Mark.O (s.squares.set j (some Mark.O))
          rw [countMark_set s.squares j Mark.O Mark.X hjlt hjempty,
            countMark_set s.squares j Mark.O Mark.O hjlt hjempty]
          simp [hbal]
        · intro hcontra
          exact Bool.noConfusion hcontra
    · rw [if_neg hp]
      exact ⟨hlen, hxcnt, hocnt, hpend, hlatch⟩
  | reset =>
    show StateInv (runEffects (resetGame s)).1
    refine stateInv_runEffects _
      (by show (List.replicate 9 (none : Cell)).length = 9; rfl) ?_ ?_
    · intro _
      show countMark Mark.X (List.replicate 9 none) =
        countMark Mark.O (List.replicate 9 none)
      decide
    · intro hcontra
      exact Bool.noConfusion hcontra
  | toggle =>
    show StateInv (runEffects (toggleMode s)).1
    refine stateInv_runEffects _
      (by show (List.replicate 9 (none : Cell)).length = 9; rfl) ?_ ?_
    · intro _
      show countMark Mark.X (List.replicate 9 none) =
        countMark Mark.O (List.replicate 9 none)
      decide
    · intro hcontra
      exact Bool.noConfusion hcontra

theorem stateInv_init : StateInv initState := by
  unfold StateInv
  refine ⟨by decide, ?_, ?_, ?_, by decide⟩
  · intro _
    decide
  · intro hc
    exact absurd hc (by decide)
  · intro hc
    exact absurd hc (by decide)

theorem stateInv_run (es : List GameEvent) (s : GameState) (h : StateInv s) :
    StateInv (run s es) := by
  induction es generalizing s with
  | nil => exact h
  | cons e es ih => exact ih (step s e).1 (stateInv_step s e h)

theorem reachable_stateInv (s : GameState) (h : Reachable s) : StateInv s := by
  obtain ⟨es, rfl⟩ := h
  exact stateInv_run es initState stateInv_init

/-- C4: in every state reachable from the initial state by clicks,
scheduled computer moves, resets and mode toggles, the number of X
marks minus the number of O marks is 0 or 1. -/
theorem reachable_mark_balance (s : GameState) (h : Reachable s) :
    (countMark Mark.X s.squares : Int) - countMark Mark.O s.squares = 0 ∨
    (countMark Mark.X s.squares : Int) - countMark Mark.O s.squares = 1 := by
  obtain ⟨_, hxcnt, hocnt, _, _⟩ := reachable_stateInv s h
  cases hxn : s.xIsNext with
  | true =>
    have := hxcnt hxn
    left
    omega
  | false =>
    have := hocnt hxn
    right
    omega

/-- Witness for C4 at a concrete reachable state: the initial state
followed by a click on cell 0 and a mode toggle. -/
theorem reachable_mark_balance_witness :
    Reachable (run initState [GameEvent.click 0, GameEvent.toggle]) ∧
    ((countMark Mark.X (run initState [GameEvent.click 0, GameEvent.toggle]).squares
        : Int)
      - countMark Mark.O (run initState
          [GameEvent.click 0, GameEvent.toggle]).squares = 0 ∨
     (countMark Mark.X (run initState [GameEvent.click 0, GameEvent.toggle]).squares
        : Int)
      - countMark Mark.O (run initState
          [GameEvent.click 0, GameEvent.toggle]).squares = 1) :=
  ⟨⟨[GameEvent.click 0, GameEvent.toggle], rfl⟩,
    reachable_mark_balance (run initState [GameEvent.click 0, GameEvent.toggle])
      ⟨[GameEvent.click 0, GameEvent.toggle], rfl⟩⟩

theorem isDraw_eq_false_of_winner (sq : Board) (m : Mark)
    (h : calculateWinner sq = some m) : isDraw sq = false := by
  unfold isDraw
  rw [h]
  rfl

theorem isTerminalB_of_winner (sq : Board) (m : Mark)
    (h : calculateWinner sq = some m) : isTerminalB sq = true := by
  unfold isTerminalB
  rw [h]
  rfl

theorem isTerminalB_of_isDraw (sq : Board) (h : isDraw sq = true) :
    isTerminalB sq = true := by
  unfold isTerminalB
  rw [h]
  simp

theorem nextSound_spec (l : Bool) (sq : Board) :
    (nextSound l sq ≠ [] ↔ (isTerminalB sq = true ∧ l = false)) ∧
    (nextSound l sq).length ≤ 1 ∧
    (∀ m, calculateWinner sq = some m → l = false → nextSound l sq = [Sound.win]) ∧
    (isDraw sq = true → l = false → nextSound l sq = [Sound.draw]) := by
  unfold nextSound isTerminalB
  cases hw : calculateWinner sq with
  | some m =>
    cases l with
    | true =>
      exact ⟨by simp, by simp, fun m' _ hc => Bool.noConfusion hc,
        fun _ hc => Bool.noConfusion hc⟩
    | false =>
      refine ⟨by simp, by simp, fun m' _ _ => rfl, fun hd _ => ?_⟩
      rw [isDraw_eq_false_of_winner sq m hw] at hd
      exact Bool.noConfusion hd
  | none =>
    cases l with
    | true =>
      cases hd : isDraw sq with
      | true =>
        exact ⟨by simp [hd], by simp [hd], fun m' hc => Option.noConfusion hc,
          fun _ hc => Bool.noConfusion hc⟩
      | false =>
        exact ⟨by simp [hd], by simp [hd], fun m' hc => Option.noConfusion hc,
          fun hc _ => Bool.noConfusion hc⟩
    | false =>
      cases hd : isDraw sq with
      | true =>
        exact ⟨by simp [hd], by simp [hd], fun m' hc => Option.noConfusion hc,
          fun _ _ => by simp [hd]⟩
      | false =>
        exact ⟨by simp [hd], by simp [hd], fun m' hc => Option.noConfusion hc,
          fun hc _ => Bool.noConfusion hc⟩

theorem nextSound_filter (l : Bool) (sq : Board) :
    (nextSound l sq).filter (fun x => x ≠ Sound.move) = nextSound l sq := by
  unfold nextSound
  split
  · split
    · rfl
    · rfl
  · split
    · split
      · rfl
      · rfl
    · rfl

theorem nextSound_self (sq : Board) : nextSound (isTerminalB sq) sq = [] := by
  unfold nextSound isTerminalB
  cases hw : calculateWinner sq with
  | some m => simp
  | none =>
    cases hd : isDraw sq with
    | true => simp [hd]
    | false => simp [hd]

theorem step_click_terminalSounds (s : GameState) (i : Fin 9) :
    terminalSounds (step s (GameEvent.click i)).2 =
      nextSound s.terminalPlayed (handleSquareClick s i.val).1.squares := by
  show terminalSounds ((handleSquareClick s i.val).2
      ++ (runEffects (handleSquareClick s i.val).1).2) = _
  unfold terminalSounds
  rw [List.filter_append]
  have h1 := handleSquareClick_sound_list s i.val
  unfold terminalSounds at h1
  rw [h1, List.nil_append, runEffects_sounds (handleSquareClick s i.val).1,
    handleSquareClick_latch s i.val]
  exact nextSound_filter _ _

theorem step_timer_eq (s : GameState) (r : Nat) (hp : s.pendingTimer = true) :
    step s (GameEvent.timerFires r) =
      ((runEffects (applyTimer r s).1).1,
        (applyTimer r s).2 ++ (runEffects (applyTimer r s).1).2) := by
  unfold step
  dsimp only
  rw [if_pos hp]

theorem step_timer_terminalSounds (s : GameState) (r : Nat)
    (hp : s.pendingTimer = true) :
    terminalSounds (step s (GameEvent.timerFires r)).2 =
      nextSound s.terminalPlayed (applyTimer r s).1.squares := by
  rw [step_timer_eq s r hp]
  unfold terminalSounds
  rw [List.filter_append]
  have h1 := applyTimer_sound_list r s
  unfold terminalSounds at h1
  rw [h1, List.nil_append, runEffects_sounds (applyTimer r s).1,
    applyTimer_latch r s]
  exact nextSound_filter _ _

theorem step_timer_eq_of_not_pending (s : GameState) (r : Nat)
    (hp : ¬ s.pendingTimer = true) :
    step s (GameEvent.timerFires r) = (s, []) := by
  unfold step
  dsimp only
  rw [if_neg hp]

theorem step_reset_terminalSounds (s : GameState) :
    terminalSounds (step s GameEvent.reset).2 = [] := by
  show terminalSounds (runEffects (resetGame s)).2 = []
  rw [runEffects_sounds (resetGame s)]
  show terminalSounds (nextSound false (List.replicate 9 (none : Cell))) = []
  decide

theorem step_toggle_terminalSounds (s : GameState) :
    terminalSounds (step s GameEvent.toggle).2 = [] := by
  show terminalSounds (runEffects (toggleMode s)).2 = []
  rw [runEffects_sounds (toggleMode s)]
  show terminalSounds (nextSound false (List.replicate 9 (none : Cell))) = []
  decide

theorem step_reset_squares (s : GameState) :
    (step s GameEvent.reset).1.squares = List.replicate 9 none := by
  show (runEffects (resetGame s)).1.squares = _
  rw [(runEffects_fields (resetGame s)).1]
  rfl

theorem step_toggle_squares (s : GameState) :
    (step s GameEvent.toggle).1.squares = List.replicate 9 none := by
  show (runEffects (toggleMode s)).1.squares = _
  rw [(runEffects_fields (toggleMode s)).1]
  rfl

theorem step_sounds_key (s : GameState) (hlatch : s.terminalPlayed
    = isTerminalB s.squares) (e : GameEvent) :
    terminalSounds (step s e).2 =
      nextSound (isTerminalB s.squares) (step s e).1.squares ∨
    (terminalSounds (step s e).2 = [] ∧ isTerminalB (step s e).1.squares = false) := by
  cases e with
  | click i =>
    left
    rw [step_click_terminalSounds s i, hlatch]
    have hsq : (step s (GameEvent.click i)).1.squares
        = (handleSquareClick s i.val).1.squares :=
      (runEffects_fields (handleSquareClick s i.val).1).1
    rw [hsq]
  | timerFires r =>
    left
    by_cases hp : s.pendingTimer = true
    · rw [step_timer_terminalSounds s r hp, hlatch]
      have hsq : (step s (GameEvent.timerFires r)).1.squares
          = (applyTimer r s).1.squares := by
        rw [step_timer_eq s r hp]
        exact (runEffects_fields (applyTimer r s).1).1
      rw [hsq]
    · rw [step_timer_eq_of_not_pending s r hp]
      exact (nextSound_self s.squares).symm
  | reset =>
    right
    refine ⟨step_reset_terminalSounds s, ?_⟩
    rw [step_reset_squares s]
    decide
  | toggle =>
    right
    refine ⟨step_toggle_terminalSounds s, ?_⟩
    rw [step_toggle_squares s]
    decide

/-- C9: the terminal sound fires exactly at the step in which the outcome
passes from non-terminal to terminal — at most one sound per step, a win
sound when the new board has a winner and a draw sound when it is drawn
— never re-fires while the outcome stays terminal (the latch of every
reachable state equals the terminality of its board), and reset and
toggleMode clear the latch. -/
theorem terminal_sound_once (s : GameState) (hs : Reachable s) (e : GameEvent) :
    s.terminalPlayed = isTerminalB s.squares ∧
    (terminalSounds (step s e).2 ≠ [] ↔
      (isTerminalB s.squares = false ∧ isTerminalB (step s e).1.squares = true)) ∧
    (terminalSounds (step s e).2).length ≤ 1 ∧
    (∀ m, calculateWinner (step s e).1.squares = some m →
      isTerminalB s.squares = false → terminalSounds (step s e).2 = [Sound.win]) ∧
    (isDraw (step s e).1.squares = true → isTerminalB s.squares = false →
      terminalSounds (step s e).2 = [Sound.draw]) ∧
    (step s GameEvent.reset).1.terminalPlayed = false ∧
    (step s GameEvent.toggle).1.terminalPlayed = false := by
  have hlatch := (reachable_stateInv s hs).2.2.2.2
  have hreset : (step s GameEvent.reset).1.terminalPlayed = false := by
    show (runEffects (resetGame s)).1.terminalPlayed = false
    rw [runEffects_latch (resetGame s)]
    show isTerminalB (List.replicate 9 none) = false
    decide
  have htog : (step s GameEvent.toggle).1.terminalPlayed = false := by
    show (runEffects (toggleMode s)).1.terminalPlayed = false
    rw [runEffects_latch (toggleMode s)]
    show isTerminalB (List.replicate 9 none) = false
    decide
  rcases step_sounds_key s hlatch e with hE | ⟨hnil, hterm⟩
  · obtain ⟨s1, s2, s3, s4⟩ :=
      nextSound_spec (isTerminalB s.squares) (step s e).1.squares
    rw [hE]
    refine ⟨hlatch, ?_, s2, ?_, ?_, hreset, htog⟩
    · constructor
      · intro h
        obtain ⟨a, b⟩ := s1.mp h
        exact ⟨b, a⟩
      · rintro ⟨a, b⟩
        exact s1.mpr ⟨b, a⟩
    · intro m hm hf
      exact s3 m hm hf
    · intro hd hf
      exact s4 hd hf
  · rw [hnil]
    refine ⟨hlatch, ?_, by simp, ?_, ?_, hreset, htog⟩
    · constructor
      · intro hc
        exact absurd rfl hc
      · rintro ⟨_, hb⟩
        rw [hterm] at hb
        exact Bool.noConfusion hb
    · intro m hm _
      rw [isTerminalB_of_winner _ m hm] at hterm
      exact Bool.noConfusion hterm
    · intro hd _
      rw [isTerminalB_of_isDraw _ hd] at hterm
      exact Bool.noConfusion hterm

/-- Witness for C9 at the initial state stepped by a reset. -/
theorem terminal_sound_once_witness :
    Reachable initState ∧
    (initState.terminalPlayed = isTerminalB initState.squares ∧
     (terminalSounds (step initState GameEvent.reset).2 ≠ [] ↔
       (isTerminalB initState.squares = false ∧
        isTerminalB (step initState GameEvent.reset).1.squares = true)) ∧
     (terminalSounds (step initState GameEvent.reset).2).length ≤ 1 ∧
     (∀ m, calculateWinner (step initState GameEvent.reset).1.squares = some m →
       isTerminalB initState.squares = false →
       terminalSounds (step initState GameEvent.reset).2 = [Sound.win]) ∧
     (isDraw (step initState GameEvent.reset).1.squares = true →
       isTerminalB initState.squares = false →
       terminalSounds (step initState GameEvent.reset).2 = [Sound.draw]) ∧
     (step initState GameEvent.reset).1.terminalPlayed = false ∧
     (step initState GameEvent.toggle).1.terminalPlayed = false) :=
  ⟨⟨[], rfl⟩, terminal_sound_once initState ⟨[], rfl⟩ GameEvent.reset⟩
